import Mathlib

/-!
A verification development for `pyrisk/world.py`, a simplified Risk-like
territorial board game.  The Python module is shallowly embedded: the
board-graph construction, the mutable game state and every public operation
are translated into executable Lean definitions, and the behavioural
properties of the module are stated and proved about those definitions.

Python dictionaries are modelled as functions into `Option` (a `none`
result corresponds to a `KeyError`), the `defaultdict(list)` adjacency
table as an association list read with an empty-list default, and the
`random.shuffle` in `reset` as an arbitrary permutation of the territory
list supplied as a parameter.
-/

namespace PyRisk

/-- The `CONNECT` board-definition constant of `world.py`: each line is a
chain of territory names joined by `--`; consecutive names are connected. -/
def CONNECT : String :=
  "Alaska--Northwest Territories--Alberta--Alaska\n" ++
  "Alberta--Ontario--Greenland--Northwest Territories\n" ++
  "Greenland--Quebec--Ontario--Eastern United States--Quebec\n" ++
  "Alberta--Western United States--Ontario--Northwest Territories\n" ++
  "Western United States--Eastern United States--Mexico--Western United States\n" ++
  "\n" ++
  "Venezuala--Peru--Argentina--Brazil\n" ++
  "Peru--Brazil--Venezuala\n" ++
  "\n" ++
  "North Africa--Egypt--East Africa--North Africa\n" ++
  "North Africa--Congo--East Africa--South Africa--Congo\n" ++
  "East Africa--Madagascar--South Africa\n" ++
  "\n" ++
  "Indonesia--Western Australia--Eastern Australia--New Guinea--Indonesia\n" ++
  "Western Australia--New Guinea\n" ++
  "\n" ++
  "Iceland--Great Britain--Western Europe--Southern Europe--Northern Europe--Western Europe\n" ++
  "Northern Europe--Great Britain--Scandanavia--Northern Europe--Ukraine--Scandanavia--Iceland\n" ++
  "Southern Europe--Ukraine\n" ++
  "\n" ++
  "Middle East--India--South East Asia--China--Mongolia--Japan--Kamchatka--Yakutsk--Irkutsk--Kamchatka--Mongolia--Irkutsk\n" ++
  "Yakutsk--Siberia--Irkutsk\n" ++
  "China--Siberia--Mongolia\n" ++
  "Siberia--Ural--China--Afghanistan--Ural\n" ++
  "Middle East--Afghanistan--India--China\n" ++
  "\n" ++
  "Mexico--Venezuala\n" ++
  "Brazil--North Africa\n" ++
  "Western Europe--North Africa--Southern Europe--Egypt--Middle East--East Africa\n" ++
  "Southern Europe--Middle East--Ukraine--Afghanistan--Ural\n" ++
  "Ukraine--Ural\n" ++
  "Greenland--Iceland\n" ++
  "Alaska--Kamchatka\n" ++
  "South East Asia--Indonesia\n"

/-- Lookup in the `defaultdict(list)` `_NEIGHBORS`, modelled as an
association list: the value at the first matching key, `[]` by default. -/
def alGet (m : List (String × List String)) (k : String) : List String :=
  match m.find? (fun p => p.1 = k) with
  | some p => p.2
  | none => []

/-- `_NEIGHBORS[k].append(v)`: appends `v` to the list stored at `k`,
materialising the key at the end of the table if it is absent (as a
`defaultdict` does). -/
def alAppend (m : List (String × List String)) (k : String) (v : String) :
    List (String × List String) :=
  match m with
  | [] => [(k, [v])]
  | (k', vs) :: rest =>
      if k' = k then (k', vs ++ [v]) :: rest else (k', vs) :: alAppend rest k v

/-- The loop body of `_build_graph` for one pair `a--b`: insert each
endpoint into the other's adjacency list unless already present. -/
def addPair (m : List (String × List String)) (a b : String) :
    List (String × List String) :=
  let m1 := if b ∈ alGet m a then m else alAppend m a b
  if a ∈ alGet m1 b then m1 else alAppend m1 b a

/-- Whitespace as recognised by Python's `str.strip`. -/
def isSpaceChar (c : Char) : Bool := c = ' ' || c = '\n' || c = '\t' || c = '\r'

/-- Python `str.strip()` on a character list: drop whitespace at both ends. -/
def stripChars (l : List Char) : List Char :=
  ((l.dropWhile isSpaceChar).reverse.dropWhile isSpaceChar).reverse

/-- Split a character list at every occurrence of a single character
(the behaviour of `str.splitlines` on newline-separated text). -/
def splitChar (c : Char) : List Char → List (List Char)
  | [] => [[]]
  | x :: xs =>
    if x = c then [] :: splitChar c xs
    else
      match splitChar c xs with
      | [] => [[x]]
      | h :: t => (x :: h) :: t

/-- Python `line.split("--")`: split at every non-overlapping, leftmost
occurrence of the two-character delimiter `--`. -/
def splitDashDash : List Char → List (List Char)
  | [] => [[]]
  | '-' :: '-' :: xs => [] :: splitDashDash xs
  | x :: xs =>
    match splitDashDash xs with
    | [] => [[x]]
    | h :: t => (x :: h) :: t

/-- `CONNECT.strip().splitlines()`, each line split on `--` with every
name stripped (the list comprehension `vals` of `_build_graph`). -/
def parseChains (s : String) : List (List String) :=
  (splitChar '\n' (stripChars s.data)).map
    (fun line => (splitDashDash line).map (fun w => String.mk (stripChars w)))

/-- The `_NEIGHBORS` table produced by `_build_graph`: fold the
`addPair` body over every consecutive pair of every chain. -/
def buildGraph : List (String × List String) :=
  (parseChains CONNECT).foldl
    (fun m vals => (vals.zip vals.tail).foldl (fun m p => addPair m p.1 p.2) m)
    []

/-- `_NEIGHBORS[t]` after graph construction. -/
def NEIGHBORS (t : String) : List String := alGet buildGraph t

/-- Lexicographic code-point comparison of character lists: Python's
string `<=` order used by `sorted`. -/
def charListLe : List Char → List Char → Bool
  | [], _ => true
  | _ :: _, [] => false
  | c :: cs, d :: ds =>
      if c = d then charListLe cs ds else decide (c.toNat < d.toNat)

/-- Python string comparison `a <= b` (code-point lexicographic). -/
def strLe (a b : String) : Bool := charListLe a.data b.data

/-- Insert a string into an already-sorted list (ascending). -/
def insertSorted (x : String) : List String → List String
  | [] => [x]
  | y :: ys => if strLe x y then x :: y :: ys else y :: insertSorted x ys

/-- `sorted` on a list of strings, as insertion sort. -/
def sortStrings (l : List String) : List String := l.foldr insertSorted []

/-- `_TERRITORIES = sorted(_NEIGHBORS.keys())`. -/
def TERRITORIES : List String := sortStrings (buildGraph.map Prod.fst)

/-- The concrete value of the `_NEIGHBORS` table (checked below by `rfl`). -/
def buildGraphList : List (String × List String) :=
  [("Alaska", ["Northwest Territories", "Alberta", "Kamchatka"]),
   ("Northwest Territories", ["Alaska", "Alberta", "Greenland", "Ontario"]),
   ("Alberta", ["Northwest Territories", "Alaska", "Ontario", "Western United States"]),
   ("Ontario", ["Alberta", "Greenland", "Quebec", "Eastern United States", "Western United States", "Northwest Territories"]),
   ("Greenland", ["Ontario", "Northwest Territories", "Quebec", "Iceland"]),
   ("Quebec", ["Greenland", "Ontario", "Eastern United States"]),
   ("Eastern United States", ["Ontario", "Quebec", "Western United States", "Mexico"]),
   ("Western United States", ["Alberta", "Ontario", "Eastern United States", "Mexico"]),
   ("Mexico", ["Eastern United States", "Western United States", "Venezuala"]),
   ("Venezuala", ["Peru", "Brazil", "Mexico"]),
   ("Peru", ["Venezuala", "Argentina", "Brazil"]),
   ("Argentina", ["Peru", "Brazil"]),
   ("Brazil", ["Argentina", "Peru", "Venezuala", "North Africa"]),
   ("North Africa", ["Egypt", "East Africa", "Congo", "Brazil", "Western Europe", "Southern Europe"]),
   ("Egypt", ["North Africa", "East Africa", "Southern Europe", "Middle East"]),
   ("East Africa", ["Egypt", "North Africa", "Congo", "South Africa", "Madagascar", "Middle East"]),
   ("Congo", ["North Africa", "East Africa", "South Africa"]),
   ("South Africa", ["East Africa", "Congo", "Madagascar"]),
   ("Madagascar", ["East Africa", "South Africa"]),
   ("Indonesia", ["Western Australia", "New Guinea", "South East Asia"]),
   ("Western Australia", ["Indonesia", "Eastern Australia", "New Guinea"]),
   ("Eastern Australia", ["Western Australia", "New Guinea"]),
   ("New Guinea", ["Eastern Australia", "Indonesia", "Western Australia"]),
   ("Iceland", ["Great Britain", "Scandanavia", "Greenland"]),
   ("Great Britain", ["Iceland", "Western Europe", "Northern Europe", "Scandanavia"]),
   ("Western Europe", ["Great Britain", "Southern Europe", "Northern Europe", "North Africa"]),
   ("Southern Europe", ["Western Europe", "Northern Europe", "Ukraine", "North Africa", "Egypt", "Middle East"]),
   ("Northern Europe", ["Southern Europe", "Western Europe", "Great Britain", "Scandanavia", "Ukraine"]),
   ("Scandanavia", ["Great Britain", "Northern Europe", "Ukraine", "Iceland"]),
   ("Ukraine", ["Northern Europe", "Scandanavia", "Southern Europe", "Middle East", "Afghanistan", "Ural"]),
   ("Middle East", ["India", "Afghanistan", "Egypt", "East Africa", "Southern Europe", "Ukraine"]),
   ("India", ["Middle East", "South East Asia", "Afghanistan", "China"]),
   ("South East Asia", ["India", "China", "Indonesia"]),
   ("China", ["South East Asia", "Mongolia", "Siberia", "Ural", "Afghanistan", "India"]),
   ("Mongolia", ["China", "Japan", "Kamchatka", "Irkutsk", "Siberia"]),
   ("Japan", ["Mongolia", "Kamchatka"]),
   ("Kamchatka", ["Japan", "Yakutsk", "Irkutsk", "Mongolia", "Alaska"]),
   ("Yakutsk", ["Kamchatka", "Irkutsk", "Siberia"]),
   ("Irkutsk", ["Yakutsk", "Kamchatka", "Mongolia", "Siberia"]),
   ("Siberia", ["Yakutsk", "Irkutsk", "China", "Mongolia", "Ural"]),
   ("Ural", ["Siberia", "China", "Afghanistan", "Ukraine"]),
   ("Afghanistan", ["China", "Ural", "Middle East", "India", "Ukraine"])]

/-- The concrete value of `_TERRITORIES` (checked below by `rfl`). -/
def TERRITORIES_list : List String :=
  ["Afghanistan", "Alaska", "Alberta", "Argentina", "Brazil", "China", "Congo",
   "East Africa", "Eastern Australia", "Eastern United States", "Egypt",
   "Great Britain", "Greenland", "Iceland", "India", "Indonesia", "Irkutsk",
   "Japan", "Kamchatka", "Madagascar", "Mexico", "Middle East", "Mongolia",
   "New Guinea", "North Africa", "Northern Europe", "Northwest Territories",
   "Ontario", "Peru", "Quebec", "Scandanavia", "Siberia", "South Africa",
   "South East Asia", "Southern Europe", "Ukraine", "Ural", "Venezuala",
   "Western Australia", "Western Europe", "Western United States", "Yakutsk"]

set_option maxRecDepth 100000

/-- Evaluating the graph construction on the `CONNECT` data yields the
expected concrete adjacency table. -/
theorem buildGraph_eq : buildGraph = buildGraphList := by rfl

/-- Evaluating the sorted key list yields the expected 42 territories. -/
theorem TERRITORIES_eq : TERRITORIES = TERRITORIES_list := by rfl

/-! ## Game state

The module-level mutable globals `_OWNER`, `_TROOPS`, `_PLAYERS`, `_CUR`,
`_LAST` of `world.py`, bundled into one record.  The two dictionaries are
functions into `Option`; a `none` result models a `KeyError`. -/

structure GameState where
  OWNER : String → Option Nat
  TROOPS : String → Option Nat
  PLAYERS : List String
  CUR : Nat
  LAST : String

/-- `reset(n_players)`.  The `random.shuffle(deck)` is modelled by taking
the shuffled deck (a permutation of `_TERRITORIES`) as a parameter. -/
def reset (n_players : Nat) (deck : List String) : GameState :=
  { PLAYERS := (List.range n_players).map (fun i => "AI_" ++ toString i)
    CUR := 0
    LAST := "Game reset"
    OWNER := deck.enum.foldl
      (fun m p => fun t => if t = p.2 then some (p.1 % n_players) else m t)
      (fun _ => none)
    TROOPS := TERRITORIES.foldl
      (fun m t => fun s => if s = t then some 1 else m s)
      (fun _ => none) }

/-- `get_neighbors(terr)`. -/
def get_neighbors (terr : String) : List String := NEIGHBORS terr

/-- `owner(terr)`: dictionary lookup `_OWNER[terr]`. -/
def owner (st : GameState) (terr : String) : Option Nat := st.OWNER terr

/-- `troops(terr)`: dictionary lookup `_TROOPS[terr]`. -/
def troops (st : GameState) (terr : String) : Option Nat := st.TROOPS terr

/-- `is_enemy(terr)`: `_OWNER[terr] != _CUR`. -/
def is_enemy (st : GameState) (terr : String) : Option Bool :=
  (st.OWNER terr).map (fun p => decide (p ≠ st.CUR))

/-- `current_player()`. -/
def current_player (st : GameState) : Nat := st.CUR

/-- `last_event()`. -/
def last_event (st : GameState) : String := st.LAST

/-- `next_player()`: `_CUR = (_CUR + 1) % len(_PLAYERS)`. -/
def next_player (st : GameState) : GameState :=
  { st with CUR := (st.CUR + 1) % st.PLAYERS.length }

/-- `attack(att, tgt)`: returns the `bool` result and resulting state, or
`none` where the Python raises (a lookup of a missing key).  The three
validation steps, the short-circuit evaluation of the ownership test, and
the success mutations follow the source line by line. -/
def attack (st : GameState) (att tgt : String) : Option (Bool × GameState) :=
  if tgt ∉ NEIGHBORS att then
    some (false, { st with LAST := "Invalid adjacency" })
  else do
    let oa ← st.OWNER att
    if oa ≠ st.CUR then
      some (false, { st with LAST := "Invalid ownership" })
    else do
      let ot ← st.OWNER tgt
      if ot = st.CUR then
        some (false, { st with LAST := "Invalid ownership" })
      else do
        let ta ← st.TROOPS att
        let tt ← st.TROOPS tgt
        if ta ≤ tt + 1 then
          some (false, { st with LAST := "Not enough troops" })
        else
          let move := max 1 (ta / 2)
          let prev := ((st.CUR : Int) - 1) % (st.PLAYERS.length : Int)
          do
            let pc ← st.PLAYERS.get? st.CUR
            let pp ← st.PLAYERS.get? prev.toNat
            some (true,
              { st with
                OWNER := fun t => if t = tgt then some st.CUR else st.OWNER t
                TROOPS := fun t =>
                  if t = tgt then some move
                  else if t = att then some (ta - move) else st.TROOPS t
                LAST := pc ++ " took " ++ tgt ++ " from " ++ pp })

/-- Python's short-circuiting `all(...)` over an `Option`-valued test. -/
def allOpt (f : String → Option Bool) : List String → Option Bool
  | [] => some true
  | t :: ts => do
      let b ← f t
      if b then allOpt f ts else some false

/-- `game_over()`: every territory has the same owner as
`_TERRITORIES[0]`. -/
def game_over (st : GameState) : Option Bool := do
  let first ← owner st (TERRITORIES.headD "")
  allOpt (fun t => (owner st t).map (fun p => decide (p = first))) TERRITORIES

/-- Python `f"{t:24s}"`: left-justify to a minimum width with spaces. -/
def padRightS (s : String) (w : Nat) : String :=
  s ++ String.mk (List.replicate (w - s.length) ' ')

/-- Python `f"{n:2d}"`: right-justify to a minimum width with spaces. -/
def padLeftS (s : String) (w : Nat) : String :=
  String.mk (List.replicate (w - s.length) ' ') ++ s

/-- One line of the map dump:
`f"{t:24s} troops={_TROOPS[t]:2d} owner=AI{_OWNER[t]}"`. -/
def formatMapLine (t : String) (tr ow : Nat) : String :=
  padRightS t 24 ++ " troops=" ++ padLeftS (toString tr) 2 ++
    " owner=AI" ++ toString ow

/-- `get_map()`: one formatted line per territory, joined with newlines. -/
def get_map (st : GameState) : Option String := do
  let lines ← TERRITORIES.mapM (fun t => do
    let tr ← st.TROOPS t
    let ow ← st.OWNER t
    pure (formatMapLine t tr ow))
  pure (String.intercalate "\n" lines)

/-! ## Operation sequences

The public mutating operations (plus a no-op standing for any of the
read-only queries), used to state state-invariant preservation. -/

inductive Op where
  | attackOp (att tgt : String)
  | nextPlayerOp
  | queryOp

/-- Apply one public operation to the state.  A raising `attack`
(`none`) leaves the state as it was. -/
def step (st : GameState) (op : Op) : GameState :=
  match op with
  | .attackOp att tgt =>
      match attack st att tgt with
      | some (_, st') => st'
      | none => st
  | .nextPlayerOp => next_player st
  | .queryOp => st

/-- Apply a sequence of public operations from left to right. -/
def run (st : GameState) (ops : List Op) : GameState := ops.foldl step st

/-- Every ordered pair `a--b` of consecutive names listed by the
connection chains, in order of appearance. -/
def allPairs : List (String × String) :=
  ((parseChains CONNECT).map (fun vals => vals.zip vals.tail)).flatten

/-- A concrete two-player state: player 0 owns every territory except
`Kamchatka` (owned by player 1); `Alaska` carries 10 troops, every other
territory 1.  Used to instantiate the attack theorems. -/
def stW : GameState :=
  { OWNER := fun t => if t = "Kamchatka" then some 1 else some 0
    TROOPS := fun t => if t = "Alaska" then some 10 else some 1
    PLAYERS := ["AI_0", "AI_1"]
    CUR := 0
    LAST := "Game reset" }

/-- Like `stW` but `Alaska` carries exactly 3 troops: the minimal margin
(defender's troops + 2) over `Kamchatka`. -/
def stM : GameState :=
  { stW with TROOPS := fun t => if t = "Alaska" then some 3 else some 1 }

/-- Decimal value of a digit string, as a downstream text consumer
accumulates it left to right. -/
def digitsVal (l : List Char) : Nat :=
  l.foldl (fun a c => a * 10 + (c.toNat - 48)) 0

/-- A parser for one `get_map` line: the territory name occupies the
first 24 columns (right-padded with spaces), then " troops=", a
space-padded troop count, then " owner=AI" and the owner index. -/
def parseMapLine (line : String) : Option (String × Nat × Nat) :=
  let cs := line.data
  let namePart := ((cs.take 24).reverse.dropWhile (fun c => c = ' ')).reverse
  let rest := cs.drop 24
  if rest.take 8 = " troops=".data then
    let rest2 := rest.drop 8
    let t1 := rest2.dropWhile (fun c => c = ' ')
    let troopsDigits := t1.takeWhile Char.isDigit
    let rest3 := t1.dropWhile Char.isDigit
    if rest3.take 9 = " owner=AI".data then
      let ownerDigits := rest3.drop 9
      if troopsDigits ≠ [] ∧ ownerDigits ≠ [] ∧
          ownerDigits.all Char.isDigit then
        some (String.mk namePart, digitsVal troopsDigits,
          digitsVal ownerDigits)
      else none
    else none
  else none

/-! ## Association-list lemmas -/

theorem alGet_eq_nil_of_not_mem_keys {m : List (String × List String)}
    {k : String} (h : k ∉ m.map Prod.fst) : alGet m k = [] := by
  unfold alGet
  have hf : m.find? (fun p => p.1 = k) = none := by
    rw [List.find?_eq_none]
    intro p hp hpk
    exact h (by
      simp only [decide_eq_true_eq] at hpk
      rw [← hpk]
      exact List.mem_map_of_mem Prod.fst hp)
  rw [hf]

theorem mem_alGet_entry {m : List (String × List String)} {k y : String}
    (h : y ∈ alGet m k) : ∃ vs, (k, vs) ∈ m ∧ y ∈ vs := by
  unfold alGet at h
  cases hf : m.find? (fun p => p.1 = k) with
  | none => rw [hf] at h; exact absurd h (List.not_mem_nil y)
  | some p =>
      rw [hf] at h
      have hpk : p.1 = k := by
        have := List.find?_some hf
        simpa using this
      have hpm : p ∈ m := List.mem_of_find?_eq_some hf
      exact ⟨p.2, by rw [← hpk]; exact hpm, h⟩

theorem alGet_cases (m : List (String × List String)) (k : String) :
    alGet m k = [] ∨ ∃ vs, (k, vs) ∈ m ∧ alGet m k = vs := by
  unfold alGet
  cases hf : m.find? (fun p => p.1 = k) with
  | none => exact Or.inl rfl
  | some p =>
      refine Or.inr ⟨p.2, ?_, rfl⟩
      have hpk : p.1 = k := by
        have := List.find?_some hf
        simpa using this
      have hpm : p ∈ m := List.mem_of_find?_eq_some hf
      rw [← hpk]
      exact hpm

/-- C6: the built board graph is symmetric (`B ∈ adj(A) → A ∈ adj(B)`),
non-reflexive (no territory is adjacent to itself), and free of duplicate
adjacency entries, even though the connection chains list some pairs more
than once (for instance `Afghanistan--Ural` appears in two chains). -/
theorem graph_adjacency_invariants :
    (∀ A B : String, B ∈ NEIGHBORS A → A ∈ NEIGHBORS B)
  ∧ (∀ A : String, A ∉ NEIGHBORS A)
  ∧ (∀ A : String, (NEIGHBORS A).Nodup)
  ∧ 2 ≤ allPairs.count ("Afghanistan", "Ural") := by
  have hsym : ∀ p ∈ buildGraphList, ∀ b ∈ p.2, p.1 ∈ alGet buildGraphList b := by
    decide
  have hirr : ∀ p ∈ buildGraphList, p.1 ∉ p.2 := by decide
  have hnd : ∀ p ∈ buildGraphList, p.2.Nodup := by decide
  refine ⟨?_, ?_, ?_, ?_⟩
  · intro A B hB
    rw [NEIGHBORS, buildGraph_eq] at hB ⊢
    obtain ⟨vs, hmem, hyv⟩ := mem_alGet_entry hB
    exact hsym (A, vs) hmem B hyv
  · intro A hA
    rw [NEIGHBORS, buildGraph_eq] at hA
    obtain ⟨vs, hmem, hyv⟩ := mem_alGet_entry hA
    exact hirr (A, vs) hmem hyv
  · intro A
    rw [NEIGHBORS, buildGraph_eq]
    rcases alGet_cases buildGraphList A with hnil | ⟨vs, hmem, hget⟩
    · rw [hnil]; exact List.nodup_nil
    · rw [hget]; exact hnd (A, vs) hmem
  · decide

/-- Witness for C6 at concrete territories: `Alaska--Kamchatka` is a
symmetric edge, and `Alaska` is not self-adjacent. -/
theorem graph_adjacency_invariants_witness :
    "Alaska" ∈ NEIGHBORS "Kamchatka" ∧ "Alaska" ∉ NEIGHBORS "Alaska" ∧
      (NEIGHBORS "Alaska").Nodup :=
  ⟨graph_adjacency_invariants.1 "Alaska" "Kamchatka"
      (by rw [NEIGHBORS, buildGraph_eq]; decide),
   graph_adjacency_invariants.2.1 "Alaska",
   graph_adjacency_invariants.2.2.1 "Alaska"⟩

/-! ## Attack resolution -/

set_option maxHeartbeats 1000000

/-- Any defined result of `attack` is either a failure that only rewrites
the last-event message, or the success state mutating exactly the target's
owner and the two troop counts. -/
theorem attack_result {st : GameState} {att tgt : String} {b : Bool}
    {st' : GameState} (h : attack st att tgt = some (b, st')) :
    (b = false ∧ ∃ msg, st' = { st with LAST := msg })
  ∨ (b = true ∧ ∃ ta tt move msg, st.TROOPS att = some ta ∧
      st.TROOPS tgt = some tt ∧ tt + 1 < ta ∧ move = max 1 (ta / 2) ∧
      st' = { st with
        OWNER := fun t => if t = tgt then some st.CUR else st.OWNER t
        TROOPS := fun t =>
          if t = tgt then some move
          else if t = att then some (ta - move) else st.TROOPS t
        LAST := msg }) := by
  unfold attack at h
  split at h
  · simp only [Option.some.injEq, Prod.mk.injEq] at h
    exact Or.inl ⟨h.1.symm, _, h.2.symm⟩
  · cases hoa : st.OWNER att with
    | none => rw [hoa] at h; simp at h
    | some oa =>
      rw [hoa] at h
      simp only [Option.bind_eq_bind, Option.some_bind] at h
      split at h
      · simp only [Option.some.injEq, Prod.mk.injEq] at h
        exact Or.inl ⟨h.1.symm, _, h.2.symm⟩
      · cases hot : st.OWNER tgt with
        | none => rw [hot] at h; simp at h
        | some ot =>
          rw [hot] at h
          simp only [Option.bind_eq_bind, Option.some_bind] at h
          split at h
          · simp only [Option.some.injEq, Prod.mk.injEq] at h
            exact Or.inl ⟨h.1.symm, _, h.2.symm⟩
          · cases hta : st.TROOPS att with
            | none => rw [hta] at h; simp at h
            | some ta =>
              rw [hta] at h
              simp only [Option.bind_eq_bind, Option.some_bind] at h
              cases htt : st.TROOPS tgt with
              | none => rw [htt] at h; simp at h
              | some tt =>
                rw [htt] at h
                simp only [Option.bind_eq_bind, Option.some_bind] at h
                split at h
                · simp only [Option.some.injEq, Prod.mk.injEq] at h
                  exact Or.inl ⟨h.1.symm, _, h.2.symm⟩
                · cases hpc : st.PLAYERS.get? st.CUR with
                  | none => rw [hpc] at h; simp at h
                  | some pc =>
                    rw [hpc] at h
                    simp only [Option.bind_eq_bind, Option.some_bind] at h
                    cases hpp : st.PLAYERS.get?
                        (((st.CUR : Int) - 1) % (st.PLAYERS.length : Int)).toNat with
                    | none => rw [hpp] at h; simp at h
                    | some pp =>
                      rw [hpp] at h
                      simp only [Option.bind_eq_bind, Option.some_bind,
                        Option.some.injEq, Prod.mk.injEq] at h
                      exact Or.inr ⟨h.1.symm, ta, tt, _, _, rfl, rfl,
                        by omega, rfl, h.2.symm⟩

/-- C9: every call to `attack`, successful or not, leaves the owner and
troop count of every territory other than `att` and `tgt` unchanged, and
leaves the current-player turn pointer unchanged. -/
theorem attack_frame {st : GameState} {att tgt : String} {b : Bool}
    {st' : GameState} (h : attack st att tgt = some (b, st')) :
    st'.CUR = st.CUR ∧
    ∀ u : String, u ≠ att → u ≠ tgt →
      st'.OWNER u = st.OWNER u ∧ st'.TROOPS u = st.TROOPS u := by
  rcases attack_result h with ⟨_, msg, rfl⟩ |
    ⟨_, ta, tt, move, msg, hta, htt, hgt, hmove, rfl⟩
  · exact ⟨rfl, fun u _ _ => ⟨rfl, rfl⟩⟩
  · refine ⟨rfl, fun u hua hut => ⟨?_, ?_⟩⟩
    · simp [hut]
    · simp [hua, hut]

/-- Witness for C9: a failing attack from `Alaska` to `Peru` leaves the
turn pointer and an uninvolved territory (`Brazil`) untouched. -/
theorem attack_frame_witness :
    ({ stW with LAST := "Invalid adjacency" } : GameState).CUR = stW.CUR ∧
    ({ stW with LAST := "Invalid adjacency" } : GameState).OWNER "Brazil" =
      stW.OWNER "Brazil" ∧
    ({ stW with LAST := "Invalid adjacency" } : GameState).TROOPS "Brazil" =
      stW.TROOPS "Brazil" := by
  have h : attack stW "Alaska" "Peru" =
      some (false, { stW with LAST := "Invalid adjacency" }) := by
    have hne : "Peru" ∉ NEIGHBORS "Alaska" := by
      rw [NEIGHBORS, buildGraph_eq]; decide
    simp [attack, hne]
  obtain ⟨h1, h2⟩ := attack_frame h
  exact ⟨h1, (h2 "Brazil" (by decide) (by decide)).1,
    (h2 "Brazil" (by decide) (by decide)).2⟩

/-- C2 (amended): the three validation checks of `attack` run in a fixed
order and stop at the first failure; each failure returns `False` and
changes nothing but the last-event message, which is set to
"Invalid adjacency" / "Invalid ownership" / "Not enough troops"
respectively (capitalised as in the code); and with the first two checks
passing, an attacker margin of exactly defender + 2 always succeeds. -/
theorem attack_validation_spec (st : GameState) (att tgt : String) :
    (tgt ∉ NEIGHBORS att →
      attack st att tgt = some (false, { st with LAST := "Invalid adjacency" }))
  ∧ (∀ oa, tgt ∈ NEIGHBORS att → st.OWNER att = some oa → oa ≠ st.CUR →
      attack st att tgt = some (false, { st with LAST := "Invalid ownership" }))
  ∧ (tgt ∈ NEIGHBORS att → st.OWNER att = some st.CUR →
      st.OWNER tgt = some st.CUR →
      attack st att tgt = some (false, { st with LAST := "Invalid ownership" }))
  ∧ (∀ ot ta tt, tgt ∈ NEIGHBORS att → st.OWNER att = some st.CUR →
      st.OWNER tgt = some ot → ot ≠ st.CUR →
      st.TROOPS att = some ta → st.TROOPS tgt = some tt → ta ≤ tt + 1 →
      attack st att tgt = some (false, { st with LAST := "Not enough troops" }))
  ∧ (∀ ot tt, tgt ∈ NEIGHBORS att → st.OWNER att = some st.CUR →
      st.OWNER tgt = some ot → ot ≠ st.CUR →
      st.TROOPS att = some (tt + 2) → st.TROOPS tgt = some tt →
      st.CUR < st.PLAYERS.length →
      ∃ st', attack st att tgt = some (true, st')) := by
  refine ⟨?_, ?_, ?_, ?_, ?_⟩
  · intro h
    simp [attack, h]
  · intro oa h hoa hne
    simp [attack, h, hoa, hne]
  · intro h hoa hot
    simp [attack, h, hoa, hot]
  · intro ot ta tt h hoa hot hne hta htt hle
    simp [attack, h, hoa, hot, hne, hta, htt, hle]
  · intro ot tt h hoa hot hne hta htt hcur
    have hlen : (0 : Int) < (st.PLAYERS.length : Int) := by
      have h0 : 0 < st.PLAYERS.length := Nat.lt_of_le_of_lt (Nat.zero_le _) hcur
      exact_mod_cast h0
    have hppidx : (((st.CUR : Int) - 1) % (st.PLAYERS.length : Int)).toNat <
        st.PLAYERS.length := by
      have h1 : 0 ≤ ((st.CUR : Int) - 1) % (st.PLAYERS.length : Int) :=
        Int.emod_nonneg _ (by omega)
      have h2 : ((st.CUR : Int) - 1) % (st.PLAYERS.length : Int) <
          (st.PLAYERS.length : Int) := Int.emod_lt_of_pos _ hlen
      omega
    have hget1 : st.PLAYERS[st.CUR]? = some st.PLAYERS[st.CUR] :=
      List.getElem?_eq_getElem hcur
    have hget2 : st.PLAYERS[(((st.CUR : Int) - 1) %
        (st.PLAYERS.length : Int)).toNat]? = some st.PLAYERS[(((st.CUR : Int) - 1)
          % (st.PLAYERS.length : Int)).toNat] :=
      List.getElem?_eq_getElem hppidx
    refine ⟨{ st with
        OWNER := fun t => if t = tgt then some st.CUR else st.OWNER t
        TROOPS := fun t => if t = tgt then some (max 1 ((tt + 2) / 2))
          else if t = att then some ((tt + 2) - max 1 ((tt + 2) / 2))
          else st.TROOPS t
        LAST := st.PLAYERS[st.CUR] ++ " took " ++ tgt ++ " from " ++
          st.PLAYERS[(((st.CUR : Int) - 1) % (st.PLAYERS.length : Int)).toNat] },
      ?_⟩
    simp [attack, h, hoa, hot, hne, hta, htt, hget1, hget2,
      show ¬(tt + 2 ≤ tt + 1) by omega]

/-- Counterexample to C2 as stated: the failure message recorded for a
non-adjacent attack is "Invalid adjacency" (capital I), not the claimed
"invalid adjacency". -/
theorem attack_validation_message_counterexample :
    ∃ st', attack stW "Alaska" "Peru" = some (false, st') ∧
      st'.LAST ≠ "invalid adjacency" := by
  have hne : "Peru" ∉ NEIGHBORS "Alaska" := by
    rw [NEIGHBORS, buildGraph_eq]; decide
  exact ⟨{ stW with LAST := "Invalid adjacency" }, by simp [attack, hne],
    by decide⟩

/-- Witness for C2: each validation branch exercised on concrete states:
non-adjacent `Alaska→Peru`, enemy-owned attacker `Kamchatka→Alaska`,
own-territory target `Alaska→Northwest Territories`, under-strength
`Japan→Kamchatka`, and the minimal +2 margin `Alaska→Kamchatka` in `stM`. -/
theorem attack_validation_spec_witness :
    attack stW "Alaska" "Peru" =
      some (false, { stW with LAST := "Invalid adjacency" }) ∧
    attack stW "Kamchatka" "Alaska" =
      some (false, { stW with LAST := "Invalid ownership" }) ∧
    attack stW "Alaska" "Northwest Territories" =
      some (false, { stW with LAST := "Invalid ownership" }) ∧
    attack stW "Japan" "Kamchatka" =
      some (false, { stW with LAST := "Not enough troops" }) ∧
    ∃ st', attack stM "Alaska" "Kamchatka" = some (true, st') := by
  refine ⟨(attack_validation_spec stW "Alaska" "Peru").1
      (by rw [NEIGHBORS, buildGraph_eq]; decide),
    (attack_validation_spec stW "Kamchatka" "Alaska").2.1 1
      (by rw [NEIGHBORS, buildGraph_eq]; decide) (by decide) (by decide),
    (attack_validation_spec stW "Alaska" "Northwest Territories").2.2.1
      (by rw [NEIGHBORS, buildGraph_eq]; decide) (by decide) (by decide),
    (attack_validation_spec stW "Japan" "Kamchatka").2.2.2.1 1 1 1
      (by rw [NEIGHBORS, buildGraph_eq]; decide) (by decide) (by decide)
      (by decide) (by decide) (by decide) (by decide),
    (attack_validation_spec stM "Alaska" "Kamchatka").2.2.2.2 1 1
      (by rw [NEIGHBORS, buildGraph_eq]; decide) (by decide) (by decide)
      (by decide) (by decide) (by decide) (by decide)⟩

/-- Python's `(c - 1) % n` (for the previous player's index), expressed
over naturals. -/
theorem prevIndex_eq {c n : Nat} (h : c < n) :
    (((c : Int) - 1) % (n : Int)).toNat = (c + n - 1) % n := by
  have hn : 0 < n := Nat.lt_of_le_of_lt (Nat.zero_le _) h
  cases c with
  | zero =>
    have e : (((0 : Nat) : Int) - 1) % (n : Int) = (n : Int) - 1 := by
      have e1 : (((0 : Nat) : Int) - 1) = (n : Int) - 1 + (n : Int) * (-1) := by
        push_cast; ring
      rw [e1, Int.add_mul_emod_self_left]
      exact Int.emod_eq_of_lt (by omega) (by omega)
    rw [e]
    rw [Nat.mod_eq_of_lt (show 0 + n - 1 < n by omega)]
    omega
  | succ c' =>
    have e : ((c' + 1 : Nat) : Int) - 1 = (c' : Int) := by push_cast; ring
    have hc : (c' : Int) < (n : Int) := by exact_mod_cast Nat.lt_of_succ_lt h
    rw [e, Int.emod_eq_of_lt (by omega) hc]
    have e2 : c' + 1 + n - 1 = c' + n := by omega
    rw [e2, Nat.add_mod_right, Nat.mod_eq_of_lt (by omega)]
    omega

/-- C1: an attack that passes all three checks succeeds: the target's
owner becomes the current player, `move = max(1, troops(att) // 2)` troops
are moved (attacker reduced by `move`, target set to exactly `move`), and
the last event reads "<AI name of current player> took <tgt> from
<AI name of player (current-1) mod n_players>" irrespective of the
target's actual previous owner `ot`. -/
theorem attack_success_spec (st : GameState) (att tgt : String)
    (n ot ta tt : Nat)
    (hplayers : st.PLAYERS = (List.range n).map (fun i => "AI_" ++ toString i))
    (hcur : st.CUR < n)
    (hadj : tgt ∈ NEIGHBORS att)
    (hoa : st.OWNER att = some st.CUR)
    (hot : st.OWNER tgt = some ot)
    (hne : ot ≠ st.CUR)
    (hta : st.TROOPS att = some ta)
    (htt : st.TROOPS tgt = some tt)
    (hgt : tt + 1 < ta) :
    ∃ st', attack st att tgt = some (true, st')
      ∧ st'.OWNER tgt = some st.CUR
      ∧ st'.TROOPS att = some (ta - max 1 (ta / 2))
      ∧ st'.TROOPS tgt = some (max 1 (ta / 2))
      ∧ st'.LAST = "AI_" ++ toString st.CUR ++ " took " ++ tgt ++ " from " ++
          ("AI_" ++ toString ((st.CUR + n - 1) % n)) := by
  have hattgt : att ≠ tgt := by
    intro he
    rw [he, hot] at hoa
    exact hne (by injection hoa)
  have hlen : st.PLAYERS.length = n := by rw [hplayers]; simp
  have hcur' : st.CUR < st.PLAYERS.length := by rw [hlen]; exact hcur
  have hget1 : st.PLAYERS[st.CUR]? = some ("AI_" ++ toString st.CUR) := by
    rw [hplayers, List.getElem?_map, List.getElem?_range hcur]
    rfl
  have hidx : (((st.CUR : Int) - 1) % (st.PLAYERS.length : Int)).toNat =
      (st.CUR + n - 1) % n := by
    rw [hlen]; exact prevIndex_eq hcur
  have hget2 : st.PLAYERS[(((st.CUR : Int) - 1) %
      (st.PLAYERS.length : Int)).toNat]? =
      some ("AI_" ++ toString ((st.CUR + n - 1) % n)) := by
    rw [hidx, hplayers, List.getElem?_map,
      List.getElem?_range (Nat.mod_lt _ (Nat.lt_of_le_of_lt (Nat.zero_le _) hcur))]
    rfl
  refine ⟨{ st with
      OWNER := fun t => if t = tgt then some st.CUR else st.OWNER t
      TROOPS := fun t => if t = tgt then some (max 1 (ta / 2))
        else if t = att then some (ta - max 1 (ta / 2)) else st.TROOPS t
      LAST := ("AI_" ++ toString st.CUR) ++ " took " ++ tgt ++ " from " ++
        ("AI_" ++ toString ((st.CUR + n - 1) % n)) }, ?_, ?_, ?_, ?_, ?_⟩
  · simp [attack, hadj, hoa, hot, hne, hta, htt, hget1, hget2,
      show ¬(ta ≤ tt + 1) by omega]
  · simp
  · simp [hattgt]
  · simp
  · rfl

/-- Witness for C1: the spec's scenario — 2 players, `Alaska` (player 0,
10 troops) attacks adjacent `Kamchatka` (player 1, 1 troop): success,
both end with 5 troops, and the message names AI_0 and AI_1. -/
theorem attack_success_spec_witness :
    ∃ st', attack stW "Alaska" "Kamchatka" = some (true, st')
      ∧ st'.OWNER "Kamchatka" = some 0
      ∧ st'.TROOPS "Alaska" = some 5
      ∧ st'.TROOPS "Kamchatka" = some 5
      ∧ st'.LAST = "AI_0 took Kamchatka from AI_1" := by
  obtain ⟨st', h1, h2, h3, h4, h5⟩ :=
    attack_success_spec stW "Alaska" "Kamchatka" 2 1 10 1 (by decide) (by decide)
      (by rw [NEIGHBORS, buildGraph_eq]; decide) (by decide) (by decide)
      (by decide) (by decide) (by decide) (by decide)
  refine ⟨st', h1, ?_, ?_, ?_, ?_⟩
  · rw [h2]; decide
  · rw [h3]; decide
  · rw [h4]; decide
  · rw [h5]; decide

/-! ## Sorting and reset -/

theorem insertSorted_perm (x : String) (l : List String) :
    (insertSorted x l).Perm (x :: l) := by
  induction l with
  | nil => exact List.Perm.refl _
  | cons y ys ih =>
    unfold insertSorted
    split
    · exact List.Perm.refl _
    · exact (List.Perm.cons y ih).trans (List.Perm.swap x y ys)

theorem sortStrings_perm (l : List String) : (sortStrings l).Perm l := by
  induction l with
  | nil => exact List.Perm.refl _
  | cons a as ih =>
    show (insertSorted a (sortStrings as)).Perm (a :: as)
    exact List.Perm.trans (insertSorted_perm a (sortStrings as))
      (List.Perm.cons a ih)

theorem TERRITORIES_perm_keys : TERRITORIES.Perm (buildGraph.map Prod.fst) :=
  sortStrings_perm _

theorem NEIGHBORS_eq_nil_of_not_mem (att : String) (h : att ∉ TERRITORIES) :
    NEIGHBORS att = [] := by
  apply alGet_eq_nil_of_not_mem_keys
  intro hk
  exact h (TERRITORIES_perm_keys.mem_iff.mpr hk)

theorem enumFrom_map_snd (k : Nat) (l : List String) :
    (List.enumFrom k l).map Prod.snd = l := by
  induction l generalizing k with
  | nil => rfl
  | cons a as ih => simp [List.enumFrom_cons, ih]

/-- The dictionary comprehension of `reset` as a function: folding the
insertions of `enumFrom k deck` over an initial map. -/
theorem reset_OWNER_fold (n : Nat) (deck : List String) :
    ∀ (k : Nat) (m : String → Option Nat) (t : String), deck.Nodup →
    ((List.enumFrom k deck).foldl
        (fun m p => fun s => if s = p.2 then some (p.1 % n) else m s) m) t
      = if t ∈ deck then some ((k + deck.indexOf t) % n) else m t := by
  induction deck with
  | nil => intro k m t _; simp
  | cons d ds ih =>
    intro k m t hnd
    rw [List.nodup_cons] at hnd
    rw [List.enumFrom_cons, List.foldl_cons, ih k.succ _ t hnd.2]
    by_cases ht : t ∈ ds
    · have htd : d ≠ t := by intro e; subst e; exact hnd.1 ht
      rw [if_pos ht, if_pos (List.mem_cons_of_mem d ht),
        List.indexOf_cons_ne ds htd]
      have e : k + 1 + ds.indexOf t = k + (ds.indexOf t).succ := by omega
      rw [e]
    · by_cases htd : t = d
      · subst htd
        rw [if_neg ht, if_pos rfl, if_pos (List.mem_cons_self t ds),
          List.indexOf_cons_self]
        simp
      · rw [if_neg ht, if_neg htd,
          if_neg (by simp [List.mem_cons, ht, htd])]

theorem reset_OWNER_eq (n : Nat) (deck : List String) (hnd : deck.Nodup)
    (t : String) :
    (reset n deck).OWNER t =
      if t ∈ deck then some (deck.indexOf t % n) else none := by
  have h := reset_OWNER_fold n deck 0 (fun _ => none) t hnd
  simpa [reset, List.enum] using h

/-- A key that never occurs in the insertion list is absent from the
resulting dictionary. -/
theorem owner_fold_not_mem (n : Nat) (l : List (Nat × String))
    (m : String → Option Nat) (t : String) (h : t ∉ l.map Prod.snd) :
    (l.foldl (fun m p => fun s => if s = p.2 then some (p.1 % n) else m s) m) t
      = m t := by
  induction l generalizing m with
  | nil => rfl
  | cons p ps ih =>
    rw [List.map_cons] at h
    rw [List.foldl_cons, ih _ (fun hm => h (List.mem_cons_of_mem _ hm))]
    rw [if_neg (fun e => h (by rw [e]; exact List.mem_cons_self _ _))]

theorem reset_TROOPS_fold (l : List String) :
    ∀ (m : String → Option Nat) (s : String),
    (l.foldl (fun m t => fun x => if x = t then some 1 else m x) m) s
      = if s ∈ l then some 1 else m s := by
  induction l with
  | nil => intro m s; simp
  | cons a as ih =>
    intro m s
    rw [List.foldl_cons, ih]
    by_cases hs : s ∈ as
    · rw [if_pos hs, if_pos (List.mem_cons_of_mem a hs)]
    · by_cases hsa : s = a
      · subst hsa
        rw [if_neg hs, if_pos rfl, if_pos (List.mem_cons_self s as)]
      · rw [if_neg hs, if_neg hsa, if_neg (by simp [List.mem_cons, hs, hsa])]

theorem reset_TROOPS_eq (n : Nat) (deck : List String) (t : String) :
    (reset n deck).TROOPS t = if t ∈ TERRITORIES then some 1 else none := by
  have h := reset_TROOPS_fold TERRITORIES (fun _ => none) t
  simpa [reset] using h

/-- C10: `attack` from a name that is not a territory of the built graph
does not raise: the `defaultdict` lookup yields an empty neighbour set, so
it returns `False` with message "Invalid adjacency" and mutates nothing;
by contrast `owner`, `troops` and `is_enemy` on an unknown name raise a
`KeyError` (modelled as `none`). -/
theorem attack_unknown_name (att : String) (hatt : att ∉ TERRITORIES) :
    (∀ st tgt, attack st att tgt =
        some (false, { st with LAST := "Invalid adjacency" }))
  ∧ (∀ n deck, deck.Perm TERRITORIES →
      owner (reset n deck) att = none ∧ troops (reset n deck) att = none ∧
        is_enemy (reset n deck) att = none) := by
  have hnil : NEIGHBORS att = [] := NEIGHBORS_eq_nil_of_not_mem att hatt
  constructor
  · intro st tgt
    have hadj : tgt ∉ NEIGHBORS att := by
      rw [hnil]
      exact List.not_mem_nil _
    simp [attack, hadj]
  · intro n deck hperm
    have hmem : att ∉ deck := fun hd => hatt (hperm.mem_iff.mp hd)
    have howner : (reset n deck).OWNER att = none := by
      have h0 := owner_fold_not_mem n (List.enumFrom 0 deck) (fun _ => none) att
        (by rw [enumFrom_map_snd]; exact hmem)
      simpa [reset, List.enum] using h0
    refine ⟨howner, ?_, ?_⟩
    · show (reset n deck).TROOPS att = none
      rw [reset_TROOPS_eq, if_neg hatt]
    · show ((reset n deck).OWNER att).map _ = none
      rw [howner]
      rfl

/-- Witness for C10 at the unknown name "Atlantis". -/
theorem attack_unknown_name_witness :
    attack stW "Atlantis" "Alaska" =
      some (false, { stW with LAST := "Invalid adjacency" }) ∧
    owner (reset 2 TERRITORIES) "Atlantis" = none ∧
    troops (reset 2 TERRITORIES) "Atlantis" = none ∧
    is_enemy (reset 2 TERRITORIES) "Atlantis" = none := by
  have h := attack_unknown_name "Atlantis" (by rw [TERRITORIES_eq]; decide)
  exact ⟨h.1 stW "Alaska", h.2 2 TERRITORIES (List.Perm.refl _)⟩

/-! ## Round-robin counting -/

theorem countP_indexOf :
    ∀ (l : List String), l.Nodup → ∀ (g : Nat → Bool),
      l.countP (fun t => g (l.indexOf t)) =
        (List.range l.length).countP g := by
  intro l
  induction l with
  | nil => intro _ g; rfl
  | cons d ds ih =>
    intro hnd g
    rw [List.nodup_cons] at hnd
    rw [List.countP_cons]
    have h1 : ds.countP (fun t => g ((d :: ds).indexOf t)) =
        ds.countP (fun t => g (ds.indexOf t + 1)) := by
      apply List.countP_congr
      intro x hx
      have hxd : d ≠ x := by intro e; subst e; exact hnd.1 hx
      rw [List.indexOf_cons_ne ds hxd]
    rw [h1]
    have h2 : ds.countP (fun t => g (ds.indexOf t + 1)) =
        (List.range ds.length).countP (fun i => g (i + 1)) :=
      ih hnd.2 (fun i => g (i + 1))
    rw [h2, List.length_cons, List.range_succ_eq_map, List.countP_cons,
      List.countP_map, List.indexOf_cons_self]
    have h3 : List.countP ((fun i => g i) ∘ Nat.succ) (List.range ds.length) =
        List.countP (fun i => g (i + 1)) (List.range ds.length) := rfl
    rw [h3]

theorem countP_range_mod (n p : Nat) (hn : 0 < n) (hp : p < n) :
    ∀ m, (List.range m).countP (fun i => decide (i % n = p)) =
      m / n + if p < m % n then 1 else 0 := by
  intro m
  induction m with
  | zero => simp
  | succ m ih =>
    rw [List.range_succ, List.countP_append, ih]
    have hsing : ([m].countP (fun i => decide (i % n = p))) =
        if m % n = p then 1 else 0 := by
      rw [List.countP_cons]
      simp
    rw [hsing]
    have hmlt : m % n < n := Nat.mod_lt m hn
    rcases Nat.lt_or_ge (m % n + 1) n with hlt | hge
    · have h1 : (m + 1) % n = m % n + 1 := by
        rw [← Nat.mod_add_mod, Nat.mod_eq_of_lt hlt]
      have h2 : (m + 1) / n = m / n := by
        rw [Nat.succ_div]
        have hnd : ¬ n ∣ (m + 1) := by
          intro hd
          rw [Nat.dvd_iff_mod_eq_zero] at hd
          omega
        simp [hnd]
      rw [h1, h2]
      split_ifs <;> omega
    · have heq : m % n + 1 = n := by omega
      have h1 : (m + 1) % n = 0 := by
        rw [← Nat.mod_add_mod, heq, Nat.mod_self]
      have h2 : (m + 1) / n = m / n + 1 := by
        rw [Nat.succ_div]
        have hd : n ∣ (m + 1) := Nat.dvd_of_mod_eq_zero h1
        simp [hd]
      rw [h1, h2]
      split_ifs <;> omega

/-- C3: immediately after `reset(n)` (for any permutation the shuffle may
produce): every owner lies in `[0, n)`, every troop count is 1, the turn
pointer is player 0, the last event is the fixed reset notice, ownership
assigns exactly one owner to every territory, and the round-robin deal is
balanced: any two players own numbers of territories differing by at
most 1. -/
theorem reset_spec (n : Nat) (deck : List String) (hn : 1 ≤ n)
    (hperm : deck.Perm TERRITORIES) :
    (∀ t ∈ TERRITORIES, ∃ k, k < n ∧ (reset n deck).OWNER t = some k)
  ∧ (∀ t ∈ TERRITORIES, (reset n deck).TROOPS t = some 1)
  ∧ (reset n deck).CUR = 0
  ∧ (reset n deck).LAST = "Game reset"
  ∧ (∀ t ∈ TERRITORIES, ∃! k, (reset n deck).OWNER t = some k)
  ∧ (∀ p q, p < n → q < n →
      TERRITORIES.countP (fun t => decide ((reset n deck).OWNER t = some p)) ≤
      TERRITORIES.countP (fun t => decide ((reset n deck).OWNER t = some q))
        + 1) := by
  have hTnd : TERRITORIES.Nodup := by rw [TERRITORIES_eq]; decide
  have hnd : deck.Nodup := hperm.nodup_iff.mpr hTnd
  have hmem : ∀ t, t ∈ TERRITORIES → t ∈ deck := fun t ht =>
    hperm.mem_iff.mpr ht
  refine ⟨?_, ?_, rfl, rfl, ?_, ?_⟩
  · intro t ht
    rw [reset_OWNER_eq n deck hnd t, if_pos (hmem t ht)]
    exact ⟨deck.indexOf t % n, Nat.mod_lt _ hn, rfl⟩
  · intro t ht
    rw [reset_TROOPS_eq, if_pos ht]
  · intro t ht
    rw [reset_OWNER_eq n deck hnd t, if_pos (hmem t ht)]
    exact ⟨deck.indexOf t % n, rfl, fun y hy => by injection hy.symm⟩
  · intro p q hpn hqn
    have hcnt : ∀ r, r < n →
        TERRITORIES.countP (fun t => decide ((reset n deck).OWNER t = some r))
          = deck.length / n + if r < deck.length % n then 1 else 0 := by
      intro r hrn
      have e1 : TERRITORIES.countP
            (fun t => decide ((reset n deck).OWNER t = some r))
          = deck.countP (fun t => decide ((reset n deck).OWNER t = some r)) :=
        (hperm.countP_eq _).symm
      have e2 : deck.countP (fun t => decide ((reset n deck).OWNER t = some r))
          = deck.countP (fun t => decide (deck.indexOf t % n = r)) := by
        apply List.countP_congr
        intro x hx
        rw [reset_OWNER_eq n deck hnd x, if_pos hx]
        simp
      have e3 : deck.countP (fun t => decide (deck.indexOf t % n = r))
          = (List.range deck.length).countP (fun i => decide (i % n = r)) :=
        countP_indexOf deck hnd (fun i => decide (i % n = r))
      rw [e1, e2, e3, countP_range_mod n r hn hrn]
    rw [hcnt p hpn, hcnt q hqn]
    split_ifs <;> omega

/-- Witness for C3 with two players and the identity permutation. -/
theorem reset_spec_witness :
    (∀ t ∈ TERRITORIES, ∃ k, k < 2 ∧ (reset 2 TERRITORIES).OWNER t = some k)
  ∧ (∀ t ∈ TERRITORIES, (reset 2 TERRITORIES).TROOPS t = some 1)
  ∧ (reset 2 TERRITORIES).CUR = 0
  ∧ (reset 2 TERRITORIES).LAST = "Game reset"
  ∧ (∀ t ∈ TERRITORIES, ∃! k, (reset 2 TERRITORIES).OWNER t = some k)
  ∧ (∀ p q, p < 2 → q < 2 →
      TERRITORIES.countP
        (fun t => decide ((reset 2 TERRITORIES).OWNER t = some p)) ≤
      TERRITORIES.countP
        (fun t => decide ((reset 2 TERRITORIES).OWNER t = some q)) + 1) :=
  reset_spec 2 TERRITORIES (by decide) (List.Perm.refl _)

/-! ## State invariant -/

theorem step_preserves_inv {n : Nat} (hn : 0 < n) (st : GameState) (op : Op)
    (h1 : st.PLAYERS.length = n) (h2 : st.CUR < n)
    (h3 : ∀ t ∈ TERRITORIES, ∃ k, k < n ∧ st.OWNER t = some k)
    (h4 : ∀ t ∈ TERRITORIES, ∃ m, 1 ≤ m ∧ st.TROOPS t = some m) :
    (step st op).PLAYERS.length = n ∧ (step st op).CUR < n ∧
    (∀ t ∈ TERRITORIES, ∃ k, k < n ∧ (step st op).OWNER t = some k) ∧
    (∀ t ∈ TERRITORIES, ∃ m, 1 ≤ m ∧ (step st op).TROOPS t = some m) := by
  cases op with
  | queryOp => exact ⟨h1, h2, h3, h4⟩
  | nextPlayerOp =>
    refine ⟨h1, ?_, h3, h4⟩
    show (st.CUR + 1) % st.PLAYERS.length < n
    rw [h1]
    exact Nat.mod_lt _ hn
  | attackOp att tgt =>
    cases hres : attack st att tgt with
    | none =>
      have hstep : step st (Op.attackOp att tgt) = st := by simp [step, hres]
      rw [hstep]
      exact ⟨h1, h2, h3, h4⟩
    | some r =>
      obtain ⟨b, st2⟩ := r
      have hstep : step st (Op.attackOp att tgt) = st2 := by simp [step, hres]
      rw [hstep]
      rcases attack_result hres with ⟨_, msg, rfl⟩ |
        ⟨_, ta, tt, move, msg, hta, htt, hgt, hmove, rfl⟩
      · exact ⟨h1, h2, h3, h4⟩
      · subst hmove
        refine ⟨h1, h2, ?_, ?_⟩
        · intro t ht
          by_cases htgt : t = tgt
          · exact ⟨st.CUR, h2, by simp [htgt]⟩
          · obtain ⟨k, hk, hok⟩ := h3 t ht
            exact ⟨k, hk, by simp [htgt, hok]⟩
        · intro t ht
          by_cases htgt : t = tgt
          · exact ⟨max 1 (ta / 2), le_max_left _ _, by simp [htgt]⟩
          · by_cases hatt : t = att
            · have hne2 : att ≠ tgt := fun e => htgt (hatt.trans e)
              exact ⟨ta - max 1 (ta / 2), by omega, by simp [hatt, hne2]⟩
            · obtain ⟨m, hm, hmt⟩ := h4 t ht
              exact ⟨m, hm, by simp [htgt, hatt, hmt]⟩

theorem run_preserves_inv {n : Nat} (hn : 0 < n) :
    ∀ (ops : List Op) (st : GameState),
    st.PLAYERS.length = n → st.CUR < n →
    (∀ t ∈ TERRITORIES, ∃ k, k < n ∧ st.OWNER t = some k) →
    (∀ t ∈ TERRITORIES, ∃ m, 1 ≤ m ∧ st.TROOPS t = some m) →
    (run st ops).PLAYERS.length = n ∧ (run st ops).CUR < n ∧
    (∀ t ∈ TERRITORIES, ∃ k, k < n ∧ (run st ops).OWNER t = some k) ∧
    (∀ t ∈ TERRITORIES, ∃ m, 1 ≤ m ∧ (run st ops).TROOPS t = some m) := by
  intro ops
  induction ops with
  | nil => intro st h1 h2 h3 h4; exact ⟨h1, h2, h3, h4⟩
  | cons op ops ih =>
    intro st h1 h2 h3 h4
    obtain ⟨g1, g2, g3, g4⟩ := step_preserves_inv hn st op h1 h2 h3 h4
    exact ih (step st op) g1 g2 g3 g4

/-- C4: for every `n ≥ 1`, after `reset(n)` every finite sequence of
public operations (attacks, turn advances and queries) preserves the
invariant that every territory's owner lies in `[0, n)` and every
territory's troop count is at least 1. -/
theorem invariant_preservation (n : Nat) (deck : List String) (ops : List Op)
    (hn : 1 ≤ n) (hperm : deck.Perm TERRITORIES) :
    ∀ t ∈ TERRITORIES,
      (∃ k, k < n ∧ (run (reset n deck) ops).OWNER t = some k) ∧
      (∃ m, 1 ≤ m ∧ (run (reset n deck) ops).TROOPS t = some m) := by
  have hTnd : TERRITORIES.Nodup := by rw [TERRITORIES_eq]; decide
  have hnd : deck.Nodup := hperm.nodup_iff.mpr hTnd
  have howner : ∀ t ∈ TERRITORIES,
      ∃ k, k < n ∧ (reset n deck).OWNER t = some k := by
    intro t ht
    rw [reset_OWNER_eq n deck hnd t, if_pos (hperm.mem_iff.mpr ht)]
    exact ⟨deck.indexOf t % n, Nat.mod_lt _ hn, rfl⟩
  have htroops : ∀ t ∈ TERRITORIES,
      ∃ m, 1 ≤ m ∧ (reset n deck).TROOPS t = some m := by
    intro t ht
    rw [reset_TROOPS_eq, if_pos ht]
    exact ⟨1, Nat.le_refl 1, rfl⟩
  have hlen : (reset n deck).PLAYERS.length = n := by simp [reset]
  have h := run_preserves_inv hn ops (reset n deck) hlen
    (show (0 : Nat) < n from hn) howner htroops
  exact fun t ht => ⟨h.2.2.1 t ht, h.2.2.2 t ht⟩

/-- Witness for C4: two players, a successful attack then a turn advance,
checked at territory `Alaska`. -/
theorem invariant_preservation_witness :
    (∃ k, k < 2 ∧ (run (reset 2 TERRITORIES)
      [Op.attackOp "Alaska" "Kamchatka", Op.nextPlayerOp]).OWNER "Alaska"
        = some k) ∧
    (∃ m, 1 ≤ m ∧ (run (reset 2 TERRITORIES)
      [Op.attackOp "Alaska" "Kamchatka", Op.nextPlayerOp]).TROOPS "Alaska"
        = some m) :=
  invariant_preservation 2 TERRITORIES
    [Op.attackOp "Alaska" "Kamchatka", Op.nextPlayerOp] (by decide)
    (List.Perm.refl _) "Alaska" (by rw [TERRITORIES_eq]; decide)

/-! ## Game over -/

theorem allOpt_spec (f : String → Option Bool) :
    ∀ l : List String, (∀ t ∈ l, (f t).isSome) →
      (allOpt f l = some true ↔ ∀ t ∈ l, f t = some true) := by
  intro l
  induction l with
  | nil => intro _; simp [allOpt]
  | cons a as ih =>
    intro hdef
    obtain ⟨b, hb⟩ :=
      Option.isSome_iff_exists.mp (hdef a (List.mem_cons_self a as))
    unfold allOpt
    rw [hb]
    simp only [Option.bind_eq_bind, Option.some_bind]
    cases b with
    | false => simp [List.forall_mem_cons, hb]
    | true =>
      rw [if_pos rfl, ih (fun t ht => hdef t (List.mem_cons_of_mem a ht))]
      simp [List.forall_mem_cons, hb]

/-- C5: `game_over()` is `True` iff every territory has the same owner as
the first territory in canonical sorted name order — a full single-owner
win condition. -/
theorem game_over_iff_single_owner (st : GameState)
    (hdef : ∀ t ∈ TERRITORIES, (st.OWNER t).isSome) :
    (game_over st = some true ↔
      ∀ t ∈ TERRITORIES, st.OWNER t = st.OWNER (TERRITORIES.headD "")) := by
  have hhead : TERRITORIES.headD "" ∈ TERRITORIES := by
    rw [TERRITORIES_eq]; decide
  obtain ⟨f, hf⟩ := Option.isSome_iff_exists.mp (hdef _ hhead)
  unfold game_over owner
  rw [hf]
  simp only [Option.bind_eq_bind, Option.some_bind]
  rw [allOpt_spec _ TERRITORIES (fun t ht => by
    obtain ⟨k, hk⟩ := Option.isSome_iff_exists.mp (hdef t ht)
    rw [hk]
    rfl)]
  constructor
  · intro h t ht
    have ht2 := h t ht
    obtain ⟨k, hk⟩ := Option.isSome_iff_exists.mp (hdef t ht)
    rw [hk] at ht2 ⊢
    simp only [Option.map_some', Option.some.injEq, decide_eq_true_eq] at ht2
    rw [ht2]
  · intro h t ht
    rw [h t ht]
    simp

/-- Witness for C5: a state where player 0 owns everything is game over. -/
theorem game_over_iff_single_owner_witness :
    game_over { stW with OWNER := fun _ => some 0 } = some true :=
  (game_over_iff_single_owner { stW with OWNER := fun _ => some 0 }
    (fun _ _ => rfl)).mpr (fun _ _ => rfl)

/-! ## Turn rotation -/

theorem next_player_iterate (n : Nat) :
    ∀ (k : Nat) (st : GameState), st.PLAYERS.length = n → st.CUR < n →
    (next_player^[k] st).PLAYERS = st.PLAYERS ∧
    (next_player^[k] st).CUR = (st.CUR + k) % n := by
  intro k
  induction k with
  | zero =>
    intro st hlen hcur
    exact ⟨rfl, by simp [Nat.mod_eq_of_lt hcur]⟩
  | succ k ih =>
    intro st hlen hcur
    obtain ⟨hp, hc⟩ := ih st hlen hcur
    rw [Function.iterate_succ_apply']
    refine ⟨?_, ?_⟩
    · show (next_player^[k] st).PLAYERS = st.PLAYERS
      exact hp
    · show ((next_player^[k] st).CUR + 1) %
        (next_player^[k] st).PLAYERS.length = (st.CUR + (k + 1)) % n
      rw [hp, hlen, hc, Nat.mod_add_mod, Nat.add_assoc]

/-- C7: from any reachable state of an `n ≥ 1` player game, one call to
`next_player` moves the turn pointer to `(current + 1) mod n` (wrapping
from `n-1` to 0), and `n` consecutive calls return it to its start. -/
theorem next_player_cyclic (n : Nat) (st : GameState) (_hn : 1 ≤ n)
    (hlen : st.PLAYERS.length = n) (hcur : st.CUR < n) :
    (next_player st).CUR = (st.CUR + 1) % n ∧
    (next_player^[n] st).CUR = st.CUR := by
  constructor
  · show (st.CUR + 1) % st.PLAYERS.length = (st.CUR + 1) % n
    rw [hlen]
  · rw [(next_player_iterate n n st hlen hcur).2, Nat.add_mod_right,
      Nat.mod_eq_of_lt hcur]

/-- Witness for C7 at the two-player state `stW`. -/
theorem next_player_cyclic_witness :
    (next_player stW).CUR = (stW.CUR + 1) % 2 ∧
    (next_player^[2] stW).CUR = stW.CUR :=
  next_player_cyclic 2 stW (by decide) rfl (by decide)

/-! ## Decimal digits -/

theorem digitChar_toNat (k : Nat) (h : k < 10) :
    (Nat.digitChar k).toNat = k + 48 := by
  interval_cases k <;> decide

theorem digitChar_isDigit (k : Nat) (h : k < 10) :
    (Nat.digitChar k).isDigit = true := by
  interval_cases k <;> decide

theorem toDigitsCore_acc (n : Nat) : ∀ (fuel : Nat) (ds : List Char),
    n < fuel →
    Nat.toDigitsCore 10 fuel n ds = Nat.toDigitsCore 10 (n + 1) n [] ++ ds := by
  induction n using Nat.strong_induction_on with
  | _ n ih =>
    intro fuel ds hfuel
    cases fuel with
    | zero => omega
    | succ f =>
      by_cases h0 : n / 10 = 0
      · simp only [Nat.toDigitsCore, h0, if_pos]
        rfl
      · have hne : n ≠ 0 := fun e => h0 (by subst e; rfl)
        have hlt : n / 10 < n :=
          Nat.div_lt_self (Nat.pos_of_ne_zero hne) (by omega)
        simp only [Nat.toDigitsCore, h0, if_neg, ite_false]
        rw [ih (n / 10) hlt f _ (by omega), ih (n / 10) hlt n _ hlt,
          List.append_assoc]
        rfl

theorem toDigits_ne_nil (n : Nat) : Nat.toDigits 10 n ≠ [] := by
  unfold Nat.toDigits
  by_cases h0 : n / 10 = 0
  · simp only [Nat.toDigitsCore, h0, if_pos]
    exact List.cons_ne_nil _ _
  · have hne : n ≠ 0 := fun e => h0 (by subst e; rfl)
    have hlt : n / 10 < n := Nat.div_lt_self (Nat.pos_of_ne_zero hne) (by omega)
    simp only [Nat.toDigitsCore, h0, if_neg, ite_false]
    rw [toDigitsCore_acc (n / 10) n _ hlt]
    simp

theorem toDigitsCore_all_digit :
    ∀ (fuel n : Nat) (ds : List Char), (∀ c ∈ ds, c.isDigit = true) →
      ∀ c ∈ Nat.toDigitsCore 10 fuel n ds, c.isDigit = true := by
  intro fuel
  induction fuel with
  | zero => intro n ds hds; exact hds
  | succ f ih =>
    intro n ds hds c hc
    have hd : (Nat.digitChar (n % 10)).isDigit = true :=
      digitChar_isDigit _ (Nat.mod_lt _ (by omega))
    by_cases h0 : n / 10 = 0
    · simp only [Nat.toDigitsCore, h0, if_pos] at hc
      rcases List.mem_cons.mp hc with rfl | hmem
      · exact hd
      · exact hds c hmem
    · simp only [Nat.toDigitsCore, h0, if_neg, ite_false] at hc
      exact ih (n / 10) (Nat.digitChar (n % 10) :: ds)
        (fun x hx => by
          rcases List.mem_cons.mp hx with rfl | hmem
          · exact hd
          · exact hds x hmem) c hc

theorem toDigits_all_digit (n : Nat) :
    ∀ c ∈ Nat.toDigits 10 n, c.isDigit = true :=
  toDigitsCore_all_digit (n + 1) n [] (fun c hc => absurd hc (List.not_mem_nil c))

theorem digitsVal_append_singleton (l : List Char) (c : Char) :
    digitsVal (l ++ [c]) = digitsVal l * 10 + (c.toNat - 48) := by
  unfold digitsVal
  rw [List.foldl_append]
  rfl

theorem digitsVal_toDigits (n : Nat) : digitsVal (Nat.toDigits 10 n) = n := by
  induction n using Nat.strong_induction_on with
  | _ n ih =>
    unfold Nat.toDigits
    by_cases h0 : n / 10 = 0
    · have hn : n < 10 := by omega
      simp only [Nat.toDigitsCore, h0, if_pos]
      unfold digitsVal
      simp only [List.foldl_cons, List.foldl_nil]
      have := digitChar_toNat (n % 10) (Nat.mod_lt _ (by omega))
      rw [this]
      omega
    · have hne : n ≠ 0 := fun e => h0 (by subst e; rfl)
      have hlt : n / 10 < n :=
        Nat.div_lt_self (Nat.pos_of_ne_zero hne) (by omega)
      simp only [Nat.toDigitsCore, h0, if_neg, ite_false]
      rw [toDigitsCore_acc (n / 10) n _ hlt]
      have e1 : Nat.toDigitsCore 10 (n / 10 + 1) (n / 10) [] =
          Nat.toDigits 10 (n / 10) := rfl
      rw [e1, digitsVal_append_singleton, ih (n / 10) hlt,
        digitChar_toNat (n % 10) (Nat.mod_lt _ (by omega))]
      omega

/-! ## Parsing a map line -/

theorem takeWhile_append_pos_neg {p : Char → Bool} :
    ∀ (l1 : List Char) (c : Char) (l2 : List Char),
      (∀ x ∈ l1, p x = true) → p c = false →
      (l1 ++ c :: l2).takeWhile p = l1 := by
  intro l1
  induction l1 with
  | nil => intro c l2 _ hc; simp [List.takeWhile_cons, hc]
  | cons a as ih =>
    intro c l2 h1 hc
    rw [List.cons_append, List.takeWhile_cons,
      h1 a (List.mem_cons_self a as)]
    simp only [if_pos]
    rw [ih c l2 (fun x hx => h1 x (List.mem_cons_of_mem a hx)) hc]

theorem dropWhile_append_pos_neg {p : Char → Bool} :
    ∀ (l1 : List Char) (c : Char) (l2 : List Char),
      (∀ x ∈ l1, p x = true) → p c = false →
      (l1 ++ c :: l2).dropWhile p = c :: l2 := by
  intro l1
  induction l1 with
  | nil => intro c l2 _ hc; simp [List.dropWhile_cons, hc]
  | cons a as ih =>
    intro c l2 h1 hc
    rw [List.cons_append, List.dropWhile_cons]
    rw [h1 a (List.mem_cons_self a as)]
    simp only [if_pos]
    exact ih c l2 (fun x hx => h1 x (List.mem_cons_of_mem a hx)) hc

theorem dropWhile_replicate_append {p : Char → Bool} (c : Char)
    (hc : p c = true) :
    ∀ (k : Nat) (l : List Char),
      (List.replicate k c ++ l).dropWhile p = l.dropWhile p := by
  intro k
  induction k with
  | zero => intro l; rfl
  | succ j ih =>
    intro l
    rw [List.replicate_succ, List.cons_append, List.dropWhile_cons, hc]
    simp only [if_pos]
    exact ih l

theorem digit_ne_space {c : Char} (hd : c.isDigit = true) :
    (c = ' ') = False := by
  simp only [eq_iff_iff, iff_false]
  intro e
  subst e
  exact absurd hd (by decide)

/-- Stripping leading spaces from a string that starts with a nonempty
digit block leaves it unchanged. -/
theorem dropWhile_space_digit_head (d : List Char) (hne : d ≠ [])
    (hdig : ∀ c ∈ d, c.isDigit = true) (l : List Char) :
    ((d ++ l).dropWhile (fun c => decide (c = ' '))) = d ++ l := by
  cases d with
  | nil => exact absurd rfl hne
  | cons d0 ds =>
    rw [List.cons_append, List.dropWhile_cons]
    have h0 : (d0 = ' ') = False :=
      digit_ne_space (hdig d0 (List.mem_cons_self d0 ds))
    simp [h0]

/-- The character-level decomposition of one formatted map line. -/
theorem formatMapLine_data (t : String) (tr ow : Nat) :
    (formatMapLine t tr ow).data =
      (t.data ++ List.replicate (24 - t.length) ' ') ++
        (" troops=".data ++
          ((List.replicate (2 - (Nat.toDigits 10 tr).length) ' ' ++
            (Nat.toDigits 10 tr ++
              (" owner=AI".data ++ Nat.toDigits 10 ow))))) := by
  show (padRightS t 24 ++ " troops=" ++ padLeftS (toString tr) 2 ++
      " owner=AI" ++ toString ow).data = _
  unfold padRightS padLeftS
  simp only [String.data_append, List.append_assoc]
  rfl

/-- Parsing inverts formatting: for a name of at most 24 columns with no
trailing spaces, `parseMapLine` recovers the territory, troop count and
owner from the formatted line. -/
theorem parse_formatMapLine (t : String) (hlen : t.length ≤ 24)
    (hname : t.data.reverse.dropWhile (fun c => decide (c = ' ')) =
      t.data.reverse) (tr ow : Nat) :
    parseMapLine (formatMapLine t tr ow) = some (t, tr, ow) := by
  have hd1ne := toDigits_ne_nil tr
  have hd1dig := toDigits_all_digit tr
  have hd2ne := toDigits_ne_nil ow
  have hd2dig := toDigits_all_digit ow
  have hdlen : t.data.length = t.length := rfl
  have hA : (t.data ++ List.replicate (24 - t.length) ' ').length = 24 := by
    simp only [List.length_append, List.length_replicate, hdlen]
    omega
  unfold parseMapLine
  dsimp only
  rw [formatMapLine_data]
  rw [List.take_left' hA, List.drop_left' hA]
  have htake8 : (" troops=".data ++
      (List.replicate (2 - (Nat.toDigits 10 tr).length) ' ' ++
        (Nat.toDigits 10 tr ++
          (" owner=AI".data ++ Nat.toDigits 10 ow)))).take 8 =
      " troops=".data := List.take_left' rfl
  have hdrop8 : (" troops=".data ++
      (List.replicate (2 - (Nat.toDigits 10 tr).length) ' ' ++
        (Nat.toDigits 10 tr ++
          (" owner=AI".data ++ Nat.toDigits 10 ow)))).drop 8 =
      List.replicate (2 - (Nat.toDigits 10 tr).length) ' ' ++
        (Nat.toDigits 10 tr ++
          (" owner=AI".data ++ Nat.toDigits 10 ow)) := List.drop_left' rfl
  rw [htake8, hdrop8, if_pos rfl]
  have ht1 : List.dropWhile (fun c => decide (c = ' '))
      (List.replicate (2 - (Nat.toDigits 10 tr).length) ' ' ++
        (Nat.toDigits 10 tr ++ (" owner=AI".data ++ Nat.toDigits 10 ow))) =
      Nat.toDigits 10 tr ++ (" owner=AI".data ++ Nat.toDigits 10 ow) := by
    rw [dropWhile_replicate_append ' ' (by decide)]
    exact dropWhile_space_digit_head _ hd1ne hd1dig _
  rw [ht1]
  have howner : " owner=AI".data ++ Nat.toDigits 10 ow =
      ' ' :: ("owner=AI".data ++ Nat.toDigits 10 ow) := rfl
  have htw : List.takeWhile Char.isDigit (Nat.toDigits 10 tr ++
      (" owner=AI".data ++ Nat.toDigits 10 ow)) =
      Nat.toDigits 10 tr := by
    rw [howner]
    exact takeWhile_append_pos_neg _ ' ' _ hd1dig (by decide)
  have hdw : List.dropWhile Char.isDigit (Nat.toDigits 10 tr ++
      (" owner=AI".data ++ Nat.toDigits 10 ow)) =
      " owner=AI".data ++ Nat.toDigits 10 ow := by
    rw [howner]
    exact dropWhile_append_pos_neg _ ' ' _ hd1dig (by decide)
  have htk9 : List.take 9 (" owner=AI".data ++ Nat.toDigits 10 ow) =
      " owner=AI".data := List.take_left' rfl
  have hdp9 : List.drop 9 (" owner=AI".data ++ Nat.toDigits 10 ow) =
      Nat.toDigits 10 ow := List.drop_left' rfl
  rw [htw, hdw, htk9, hdp9, if_pos rfl]
  rw [if_pos ⟨hd1ne, hd2ne, List.all_eq_true.mpr hd2dig⟩]
  have hnp : (List.dropWhile (fun c => decide (c = ' '))
      (t.data ++ List.replicate (24 - t.length) ' ').reverse).reverse =
      t.data := by
    rw [List.reverse_append, List.reverse_replicate,
      dropWhile_replicate_append ' ' (by decide), hname, List.reverse_reverse]
  rw [hnp, digitsVal_toDigits, digitsVal_toDigits]

/-- No character of a formatted map line is a newline, provided the
territory name itself contains none. -/
theorem formatMapLine_no_newline (t : String) (hnn : Char.ofNat 10 ∉ t.data)
    (tr ow : Nat) : Char.ofNat 10 ∉ (formatMapLine t tr ow).data := by
  rw [formatMapLine_data]
  intro hmem
  rcases List.mem_append.mp hmem with h | h
  · rcases List.mem_append.mp h with h1 | h1
    · exact hnn h1
    · exact absurd (List.eq_of_mem_replicate h1) (by decide)
  · rcases List.mem_append.mp h with h1 | h1
    · exact absurd h1 (by decide)
    · rcases List.mem_append.mp h1 with h2 | h2
      · exact absurd (List.eq_of_mem_replicate h2) (by decide)
      · rcases List.mem_append.mp h2 with h3 | h3
        · exact absurd (toDigits_all_digit tr _ h3) (by decide)
        · rcases List.mem_append.mp h3 with h4 | h4
          · exact absurd h4 (by decide)
          · exact absurd (toDigits_all_digit ow _ h4) (by decide)

/-! ## The map dump -/

theorem mapM_option_spec (F : String → Option String) :
    ∀ l : List String, (∀ t ∈ l, (F t).isSome) →
      ∃ L : List String, l.mapM F = some L ∧ L.length = l.length ∧
        ∀ i (hi : i < l.length) (hL : i < L.length),
          F (l.get ⟨i, hi⟩) = some (L.get ⟨i, hL⟩) := by
  intro l
  induction l with
  | nil =>
    intro _
    exact ⟨[], rfl, rfl, fun i hi => absurd hi (Nat.not_lt_zero i)⟩
  | cons a as ih =>
    intro hdef
    obtain ⟨b, hb⟩ :=
      Option.isSome_iff_exists.mp (hdef a (List.mem_cons_self a as))
    obtain ⟨L, hL, hlen, hidx⟩ :=
      ih (fun t ht => hdef t (List.mem_cons_of_mem a ht))
    refine ⟨b :: L, ?_, by simp [hlen], ?_⟩
    · rw [List.mapM_cons, hb, hL]
      rfl
    · intro i hi hL2
      cases i with
      | zero => simpa using hb
      | succ j =>
        have hj := hidx j (by simpa using hi) (by simpa using hL2)
        simpa using hj

/-- C8: `get_map` produces one line per territory, in canonical sorted
name order (so the line count equals the territory count); line `i` is
exactly the 24-column-padded name, `" troops="`, the 2-column-padded
troop count and `" owner=AI"` with the owner index; each line contains no
newline and parses back to that territory's owner and troop count. -/
theorem get_map_spec (st : GameState)
    (hdef : ∀ t ∈ TERRITORIES, (st.TROOPS t).isSome ∧ (st.OWNER t).isSome) :
    ∃ L : List String,
      get_map st = some (String.intercalate "\n" L) ∧
      L.length = TERRITORIES.length ∧
      ∀ i (hi : i < TERRITORIES.length) (hL : i < L.length),
        ∃ tr ow, st.TROOPS (TERRITORIES.get ⟨i, hi⟩) = some tr ∧
          st.OWNER (TERRITORIES.get ⟨i, hi⟩) = some ow ∧
          L.get ⟨i, hL⟩ = formatMapLine (TERRITORIES.get ⟨i, hi⟩) tr ow ∧
          parseMapLine (L.get ⟨i, hL⟩) =
            some (TERRITORIES.get ⟨i, hi⟩, tr, ow) ∧
          Char.ofNat 10 ∉ (L.get ⟨i, hL⟩).data := by
  have hfacts : ∀ t ∈ TERRITORIES, t.length ≤ 24 ∧
      (List.dropWhile (fun c => decide (c = ' ')) t.data.reverse =
        t.data.reverse) ∧ Char.ofNat 10 ∉ t.data := by
    rw [TERRITORIES_eq]
    decide
  obtain ⟨L, hmapM, hlen, hidx⟩ := mapM_option_spec
    (fun t => do
      let tr ← st.TROOPS t
      let ow ← st.OWNER t
      pure (formatMapLine t tr ow)) TERRITORIES
    (fun t ht => by
      obtain ⟨tr, htr⟩ := Option.isSome_iff_exists.mp (hdef t ht).1
      obtain ⟨ow, how⟩ := Option.isSome_iff_exists.mp (hdef t ht).2
      simp [htr, how])
  refine ⟨L, ?_, by rw [hlen], ?_⟩
  · unfold get_map
    rw [hmapM]
    rfl
  · intro i hi hL2
    have ht : TERRITORIES.get ⟨i, hi⟩ ∈ TERRITORIES := List.get_mem _ _ _
    obtain ⟨tr, htr⟩ := Option.isSome_iff_exists.mp (hdef _ ht).1
    obtain ⟨ow, how⟩ := Option.isSome_iff_exists.mp (hdef _ ht).2
    have hF := hidx i hi hL2
    simp only [htr, how, Option.bind_eq_bind, Option.some_bind,
      Option.pure_def, Option.some.injEq] at hF
    obtain ⟨h24, hrs, hnn⟩ := hfacts _ ht
    refine ⟨tr, ow, htr, how, hF.symm, ?_, ?_⟩
    · rw [← hF]
      exact parse_formatMapLine _ h24 hrs tr ow
    · rw [← hF]
      exact formatMapLine_no_newline _ hnn tr ow

/-- Witness for C8 at the concrete state `stW`. -/
theorem get_map_spec_witness :
    ∃ L : List String,
      get_map stW = some (String.intercalate "\n" L) ∧
      L.length = TERRITORIES.length ∧
      ∀ i (hi : i < TERRITORIES.length) (hL : i < L.length),
        ∃ tr ow, stW.TROOPS (TERRITORIES.get ⟨i, hi⟩) = some tr ∧
          stW.OWNER (TERRITORIES.get ⟨i, hi⟩) = some ow ∧
          L.get ⟨i, hL⟩ = formatMapLine (TERRITORIES.get ⟨i, hi⟩) tr ow ∧
          parseMapLine (L.get ⟨i, hL⟩) =
            some (TERRITORIES.get ⟨i, hi⟩, tr, ow) ∧
          Char.ofNat 10 ∉ (L.get ⟨i, hL⟩).data :=
  get_map_spec stW (fun t _ => by
    constructor
    · show (if t = "Alaska" then (some 10 : Option Nat)
        else some 1).isSome = true
      split <;> rfl
    · show (if t = "Kamchatka" then (some 1 : Option Nat)
        else some 0).isSome = true
      split <;> rfl)

end PyRisk
